import Mathlib

/-!
Verification of the natural-language specification of `release.go` from
grategames/bindata against a shallow embedding of the code in Lean.

Byte sequences are modelled as `List Nat` (each entry one byte). Text
templates emitted by the generator are transcribed from the Go source and
turned into byte lists with `strBytes`. The output stream of the generator
is the concatenation of the byte lists written to the `io.Writer`, paired
with an optional error (Go's `error` results are modelled as `Option
String` / `Except String`).
-/

namespace Bindata

/-- UTF-8 encoding of one Unicode code point, used to turn the Lean string
transcriptions of the Go templates into the byte sequences the generator
emits. -/
def encodeUtf8 (n : Nat) : List Nat :=
  if n < 0x80 then [n]
  else if n < 0x800 then [0xC0 + n / 64, 0x80 + n % 64]
  else if n < 0x10000 then [0xE0 + n / 4096, 0x80 + n / 64 % 64, 0x80 + n % 64]
  else [0xF0 + n / 262144, 0x80 + n / 4096 % 64, 0x80 + n / 64 % 64, 0x80 + n % 64]

/-- The bytes of a string (UTF-8). All templates in this file are ASCII. -/
def strBytes (s : String) : List Nat :=
  (s.data.map (fun c => encodeUtf8 c.toNat)).flatten

/-- Lowercase hexadecimal digit byte for a value below 16. -/
def hexDigit (n : Nat) : Nat :=
  if n < 10 then 0x30 + n else 0x57 + n

/-- One byte written as a backslash-x escape with two lowercase hex digits. -/
def hexEsc (b : Nat) : List Nat :=
  [0x5C, 0x78, hexDigit (b / 16), hexDigit (b % 16)]

/-- Modelled from the spec: the low-level primitive that writes arbitrary
bytes as an escaped literal into an output stream (the `StringWriter` used
by release.go, declared elsewhere in the repository and not under src/).
Every input byte is written as a backslash-x hex escape. -/
def escapeBytes : List Nat → List Nat
  | [] => []
  | b :: r => hexEsc b ++ escapeBytes r

/-! ## The literal sanitizer (release.go lines 89-98) -/

/-- Replacement text for a backtick: the bytes of the Go source text
appearing at release.go line 91, an escaped-and-concatenated backtick. -/
def tickRepl : List Nat := [0x60, 0x2B, 0x22, 0x60, 0x22, 0x2B, 0x60]

/-- Replacement text for a UTF-8 byte-order mark: the bytes of the Go
source text appearing at release.go line 97. -/
def bomRepl : List Nat :=
  [0x60, 0x2B, 0x22, 0x5C, 0x78, 0x45, 0x46, 0x5C, 0x78, 0x42, 0x42,
   0x5C, 0x78, 0x42, 0x46, 0x22, 0x2B, 0x60]

/-- bytes.Replace(b, backtick, tickRepl, -1): leftmost non-overlapping
replacement of every backtick byte, as in release.go line 91. -/
def replaceTick : List Nat → List Nat
  | [] => []
  | b :: r => if b = 0x60 then tickRepl ++ replaceTick r else b :: replaceTick r

/-- bytes.Replace(b, BOM, bomRepl, -1): leftmost non-overlapping
replacement of every 0xEF 0xBB 0xBF sequence, as in release.go line 97. -/
def replaceBOM : List Nat → List Nat
  | [] => []
  | [a] => [a]
  | [a, b] => [a, b]
  | a :: b :: c :: r =>
    if a = 0xEF ∧ b = 0xBB ∧ c = 0xBF then bomRepl ++ replaceBOM r
    else a :: replaceBOM (b :: c :: r)

/-- sanitize (release.go lines 89-98): replace backticks, then byte-order
marks, preparing bytes for embedding in a Go raw string literal. -/
def sanitize (b : List Nat) : List Nat :=
  replaceBOM (replaceTick b)

/-- Whether a byte list starts with the UTF-8 byte-order mark. -/
def bomStart : List Nat → Bool
  | a :: b :: c :: _ => a == 0xEF && b == 0xBB && c == 0xBF
  | _ => false

/-- Whether the UTF-8 byte-order mark occurs anywhere in a byte list. -/
def hasBomSub : List Nat → Bool
  | [] => false
  | [_] => false
  | [_, _] => false
  | a :: b :: c :: r => (a == 0xEF && b == 0xBB && c == 0xBF) || hasBomSub (b :: c :: r)

/-! ## Go's unicode/utf8.Valid, modelling the stdlib call at release.go line 374 -/

/-- Whether a byte is a UTF-8 continuation byte (0x80-0xBF). -/
def isCont (b : Nat) : Bool := decide (0x80 ≤ b ∧ b ≤ 0xBF)

/-- Accepted range of the second byte after a three-byte leader, following
Go's utf8 accept ranges (0xE0 needs 0xA0-0xBF, 0xED needs 0x80-0x9F). -/
def accept3 (lead c : Nat) : Bool :=
  if lead = 0xE0 then decide (0xA0 ≤ c ∧ c ≤ 0xBF)
  else if lead = 0xED then decide (0x80 ≤ c ∧ c ≤ 0x9F)
  else isCont c

/-- Accepted range of the second byte after a four-byte leader, following
Go's utf8 accept ranges (0xF0 needs 0x90-0xBF, 0xF4 needs 0x80-0x8F). -/
def accept4 (lead c : Nat) : Bool :=
  if lead = 0xF0 then decide (0x90 ≤ c ∧ c ≤ 0xBF)
  else if lead = 0xF4 then decide (0x80 ≤ c ∧ c ≤ 0x8F)
  else isCont c

/-- Go's unicode/utf8.Valid on a byte sequence: every position starts a
well-formed UTF-8 encoding (no overlong forms, no surrogates, max
U+10FFFF). -/
def utf8Valid : List Nat → Bool
  | [] => true
  | b :: r =>
    if b < 0x80 then utf8Valid r
    else if b < 0xC2 then false
    else if b ≤ 0xDF then
      match r with
      | [] => false
      | c1 :: r2 => isCont c1 && utf8Valid r2
    else if b ≤ 0xEF then
      match r with
      | c1 :: c2 :: r3 => accept3 b c1 && isCont c2 && utf8Valid r3
      | _ => false
    else if b ≤ 0xF4 then
      match r with
      | c1 :: c2 :: c3 :: r4 => accept4 b c1 && isCont c2 && isCont c3 && utf8Valid r4
      | _ => false
    else false

/-! ## Go's %q quoting of a byte slice (fmt's call into strconv.Quote)

The quoted/escaped-literal form used on the uncompressed copy path for
non-UTF-8 content (release.go line 377). Modelled from the spec: %q is the
target language's own standard escaping, outside this repository. Quote
and backslash are escaped, printable ASCII stands for itself, the
standard control escapes are used, every other byte of an invalid
encoding and every remaining control byte becomes a backslash-x escape.
Printability of decoded non-ASCII runes is approximated as true, so a
well-formed multi-byte encoding is copied verbatim; the approximation
only changes which escape form Go would pick, and every form re-parses
to the same bytes. -/

/-- Go quoting of one ASCII byte, following strconv's escaped-rune logic. -/
def quoteAscii (b : Nat) : List Nat :=
  if b = 0x22 ∨ b = 0x5C then [0x5C, b]
  else if 0x20 ≤ b ∧ b < 0x7F then [b]
  else if b = 7 then [0x5C, 0x61]
  else if b = 8 then [0x5C, 0x62]
  else if b = 12 then [0x5C, 0x66]
  else if b = 0x0A then [0x5C, 0x6E]
  else if b = 0x0D then [0x5C, 0x72]
  else if b = 9 then [0x5C, 0x74]
  else if b = 0x0B then [0x5C, 0x76]
  else hexEsc b

/-- Body of the Go quoted literal for a byte sequence: decode runes left to
right, escape ASCII as `quoteAscii`, copy well-formed multi-byte encodings,
and write each byte of an ill-formed encoding as a backslash-x escape.
The fuel argument only serves the termination checker; every step consumes
at least one input byte, so fuel equal to the input length suffices. -/
def quoteBodyF : Nat → List Nat → List Nat
  | 0, _ => []
  | _ + 1, [] => []
  | f + 1, b :: r =>
    if b < 0x80 then quoteAscii b ++ quoteBodyF f r
    else if 0xC2 ≤ b ∧ b ≤ 0xDF then
      match r with
      | [] => hexEsc b
      | c1 :: r2 =>
        if isCont c1 then b :: c1 :: quoteBodyF f r2
        else hexEsc b ++ quoteBodyF f r
    else if 0xE0 ≤ b ∧ b ≤ 0xEF then
      match r with
      | c1 :: c2 :: r3 =>
        if accept3 b c1 && isCont c2 then b :: c1 :: c2 :: quoteBodyF f r3
        else hexEsc b ++ quoteBodyF f r
      | _ => hexEsc b ++ quoteBodyF f r
    else if 0xF0 ≤ b ∧ b ≤ 0xF4 then
      match r with
      | c1 :: c2 :: c3 :: r4 =>
        if accept4 b c1 && isCont c2 && isCont c3 then b :: c1 :: c2 :: c3 :: quoteBodyF f r4
        else hexEsc b ++ quoteBodyF f r
      | _ => hexEsc b ++ quoteBodyF f r
    else hexEsc b ++ quoteBodyF f r

/-- Body of the Go quoted literal for a byte sequence. -/
def quoteBody (s : List Nat) : List Nat := quoteBodyF s.length s

/-- Go's %q of a byte sequence: a double-quoted literal around the escaped
body. -/
def goQuote (b : List Nat) : List Nat :=
  0x22 :: (quoteBody b ++ [0x22])

/-! ## A parser for the Go string expressions the generator emits

Go's literal-parsing rules, restricted to the forms the generator
produces: raw (backtick) string literals, whose value is the delimited
bytes with every carriage return discarded; interpreted (double-quoted)
string literals with the escapes backslash-x, backslash-quote,
backslash-backslash and the standard control escapes; and concatenation
of such literals with plus signs. -/

/-- Value of one hexadecimal digit byte (either case), if it is one. -/
def hexVal (c : Nat) : Option Nat :=
  if 0x30 ≤ c ∧ c ≤ 0x39 then some (c - 0x30)
  else if 0x41 ≤ c ∧ c ≤ 0x46 then some (c - 0x37)
  else if 0x61 ≤ c ∧ c ≤ 0x66 then some (c - 0x57)
  else none

/-- Parse the body of an interpreted string literal after the opening
quote, yielding its byte value and the input after the closing quote. -/
def parseQuoted : List Nat → Option (List Nat × List Nat)
  | [] => none
  | b :: r =>
    if b = 0x22 then some ([], r)
    else if b = 0x5C then
      match r with
      | [] => none
      | e :: r2 =>
        if e = 0x78 then
          match r2 with
          | h1 :: h2 :: r3 =>
            match hexVal h1, hexVal h2 with
            | some v1, some v2 => (parseQuoted r3).map (fun p => ((16 * v1 + v2) :: p.1, p.2))
            | _, _ => none
          | _ => none
        else if e = 0x22 ∨ e = 0x5C then (parseQuoted r2).map (fun p => (e :: p.1, p.2))
        else if e = 0x61 then (parseQuoted r2).map (fun p => (7 :: p.1, p.2))
        else if e = 0x62 then (parseQuoted r2).map (fun p => (8 :: p.1, p.2))
        else if e = 0x66 then (parseQuoted r2).map (fun p => (12 :: p.1, p.2))
        else if e = 0x6E then (parseQuoted r2).map (fun p => (10 :: p.1, p.2))
        else if e = 0x72 then (parseQuoted r2).map (fun p => (13 :: p.1, p.2))
        else if e = 0x74 then (parseQuoted r2).map (fun p => (9 :: p.1, p.2))
        else if e = 0x76 then (parseQuoted r2).map (fun p => (11 :: p.1, p.2))
        else none
    else if b = 0x0A then none
    else (parseQuoted r).map (fun p => (b :: p.1, p.2))

/-- Parse the body of a raw string literal after the opening backtick:
bytes are taken verbatim up to the closing backtick, except that carriage
returns are discarded, per the Go specification. -/
def parseRaw : List Nat → Option (List Nat × List Nat)
  | [] => none
  | b :: r =>
    if b = 0x60 then some ([], r)
    else if b = 0x0D then parseRaw r
    else (parseRaw r).map (fun p => (b :: p.1, p.2))

/-- Parse one string literal, raw or interpreted. -/
def parseLit : List Nat → Option (List Nat × List Nat)
  | [] => none
  | b :: r =>
    if b = 0x60 then parseRaw r
    else if b = 0x22 then parseQuoted r
    else none

/-- Parse a plus-concatenation of string literals; the fuel bounds the
number of literals and always suffices when it exceeds the input length. -/
def parseConcatAux : Nat → List Nat → Option (List Nat × List Nat)
  | 0, _ => none
  | f + 1, s =>
    match parseLit s with
    | none => none
    | some (bs, rest) =>
      match rest with
      | [] => some (bs, [])
      | h :: t =>
        if h = 0x2B then (parseConcatAux f t).map (fun p => (bs ++ p.1, p.2))
        else some (bs, h :: t)

/-- Parse a complete Go string expression (concatenation of literals that
consumes the whole input), yielding its byte value. -/
def parseGoStringExpr (s : List Nat) : Option (List Nat) :=
  match parseConcatAux (s.length + 1) s with
  | some (bs, []) => some bs
  | _ => none

/-! ## Data model -/

/-- Modelled from the spec: one Asset record of the table of contents
(built outside src/): logical name, filesystem path, and the generated
identifier `Func` used to name emitted symbols. -/
structure Asset where
  Path : String
  Name : String
  Func : String
deriving DecidableEq

/-- Modelled from the spec: the configuration object selecting the
strategy flags (declared outside src/); release.go reads exactly the two
booleans NoCompress and NoMemCopy from it. -/
structure Config where
  NoCompress : Bool
  NoMemCopy : Bool
deriving DecidableEq

/-- Result of a successful stat at generation time: Size(), the uint32 of
Mode(), and ModTime().Unix() whole seconds, the three values release.go
line 407 formats into the output. -/
structure FileInfo where
  size : Int
  mode : Nat
  modTimeUnix : Int
deriving DecidableEq

/-- The filesystem as seen by one generation run: what os.Open reads and
what os.Stat reports for each path, or the error either call returns. -/
structure World where
  openFile : String → Except String (List Nat)
  statFile : String → Except String FileInfo

/-! ## Header emitters (release.go lines 100-284)

Each header function writes one fixed template; the byte streams below
are the transcriptions of those templates (with the doubled percent
signs of the Go format strings collapsed, as Fprintf does). -/

/-- Template of header_compressed_nomemcopy (release.go lines 100-150). -/
def header_compressed_nomemcopy : String :=
  "import (\n\t\"bytes\"\n\t\"compress/gzip\"\n\t\"fmt\"\n\t\"io\"\n\t\"reflect\"\n\t\"strings\"\n\t\"unsafe\"\n\t\"os\"\n\t\"time\"\n\t\"io/ioutil\"\n\t\"path\"\n\t\"path/filepath\"\n\t\"grate\"\n)\n\nfunc init() \x7b\n\tgrate.Asset = Asset\n\tgrate.AssetDir = AssetDir\n\tgrate.AssetNames = AssetNames\n\x7d\n\nfunc bindata_read(data, name string) ([]byte, error) \x7b\n\tvar empty [0]byte\n\tsx := (*reflect.StringHeader)(unsafe.Pointer(&data))\n\tb := empty[:]\n\tbx := (*reflect.SliceHeader)(unsafe.Pointer(&b))\n\tbx.Data = sx.Data\n\tbx.Len = len(data)\n\tbx.Cap = bx.Len\n\n\tgz, err := gzip.NewReader(bytes.NewBuffer(b))\n\tif err != nil \x7b\n\t\treturn nil, fmt.Errorf(\"Read %q: %v\", name, err)\n\t\x7d\n\n\tvar buf bytes.Buffer\n\t_, err = io.Copy(&buf, gz)\n\tgz.Close()\n\n\tif err != nil \x7b\n\t\treturn nil, fmt.Errorf(\"Read %q: %v\", name, err)\n\t\x7d\n\n\treturn buf.Bytes(), nil\n\x7d\n\n"

/-- Template of header_compressed_memcopy (release.go lines 152-192). -/
def header_compressed_memcopy : String :=
  "import (\n\t\"bytes\"\n\t\"compress/gzip\"\n\t\"fmt\"\n\t\"io\"\n\t\"strings\"\n\t\"os\"\n\t\"time\"\n\t\"io/ioutil\"\n\t\"path\"\n\t\"path/filepath\"\n\t\"grate\"\n)\n\nfunc init() \x7b\n\tgrate.Asset = Asset\n\tgrate.AssetDir = AssetDir\n\tgrate.AssetNames = AssetNames\n\x7d\n\nfunc bindata_read(data []byte, name string) ([]byte, error) \x7b\n\tgz, err := gzip.NewReader(bytes.NewBuffer(data))\n\tif err != nil \x7b\n\t\treturn nil, fmt.Errorf(\"Read %q: %v\", name, err)\n\t\x7d\n\n\tvar buf bytes.Buffer\n\t_, err = io.Copy(&buf, gz)\n\tgz.Close()\n\n\tif err != nil \x7b\n\t\treturn nil, fmt.Errorf(\"Read %q: %v\", name, err)\n\t\x7d\n\n\treturn buf.Bytes(), nil\n\x7d\n\n"

/-- Template of header_uncompressed_nomemcopy (release.go lines 194-227). -/
def header_uncompressed_nomemcopy : String :=
  "import (\n\t\"fmt\"\n\t\"reflect\"\n\t\"strings\"\n\t\"unsafe\"\n\t\"os\"\n\t\"time\"\n\t\"io/ioutil\"\n\t\"path\"\n\t\"path/filepath\"\n\t\"grate\"\n)\n\nfunc init() \x7b\n\tgrate.Asset = Asset\n\tgrate.AssetDir = AssetDir\n\tgrate.AssetNames = AssetNames\n\x7d\n\nfunc bindata_read(data, name string) ([]byte, error) \x7b\n\tvar empty [0]byte\n\tsx := (*reflect.StringHeader)(unsafe.Pointer(&data))\n\tb := empty[:]\n\tbx := (*reflect.SliceHeader)(unsafe.Pointer(&b))\n\tbx.Data = sx.Data\n\tbx.Len = len(data)\n\tbx.Cap = bx.Len\n\treturn b, nil\n\x7d\n\n"

/-- Template of header_uncompressed_memcopy (release.go lines 229-248). -/
def header_uncompressed_memcopy : String :=
  "import (\n\t\"fmt\"\n\t\"strings\"\n\t\"os\"\n\t\"time\"\n\t\"io/ioutil\"\n\t\"path\"\n\t\"path/filepath\"\n\t\"grate\"\n)\n\nfunc init() \x7b\n\tgrate.Asset = Asset\n\tgrate.AssetDir = AssetDir\n\tgrate.AssetNames = AssetNames\n\x7d\n"

/-- Template of header_release_common (release.go lines 250-284). -/
def header_release_common : String :=
  "type asset struct \x7b\n\tbytes []byte\n\tinfo  os.FileInfo\n\x7d\n\ntype bindata_file_info struct \x7b\n\tname string\n\tsize int64\n\tmode os.FileMode\n\tmodTime time.Time\n\x7d\n\nfunc (fi bindata_file_info) Name() string \x7b\n\treturn fi.name\n\x7d\nfunc (fi bindata_file_info) Size() int64 \x7b\n\treturn fi.size\n\x7d\nfunc (fi bindata_file_info) Mode() os.FileMode \x7b\n\treturn fi.mode\n\x7d\nfunc (fi bindata_file_info) ModTime() time.Time \x7b\n\treturn fi.modTime\n\x7d\nfunc (fi bindata_file_info) IsDir() bool \x7b\n\treturn false\n\x7d\nfunc (fi bindata_file_info) Sys() interface\x7b\x7d \x7b\n\treturn nil\n\x7d\n\n"

/-- writeReleaseHeader (release.go lines 36-55): the strategy-specific
header followed by the common header. With the in-memory writer the
header writes cannot fail, so the function is the emitted byte stream. -/
def writeReleaseHeader (c : Config) : List Nat :=
  (if c.NoCompress then
    if c.NoMemCopy then strBytes (header_uncompressed_nomemcopy)
    else strBytes (header_uncompressed_memcopy)
  else
    if c.NoMemCopy then strBytes (header_compressed_nomemcopy)
    else strBytes (header_compressed_memcopy)) ++
  strBytes (header_release_common)

/-! ## Asset emitters (release.go lines 286-409) -/

/-- compressed_nomemcopy (release.go lines 286-311): a string literal of
the gzip stream written through the escaping writer, then the _bytes
function delegating to bindata_read. `gz` is the compression function
(compress/gzip, outside this repository), kept as a parameter. -/
def compressed_nomemcopy (gz : List Nat → List Nat) (a : Asset) (content : List Nat) : List Nat :=
  strBytes ("var _" ++ a.Func ++ " = \"") ++
  escapeBytes (gz content) ++
  strBytes ("\"\n\nfunc " ++ a.Func ++ "_bytes() ([]byte, error) \x7b\n\treturn bindata_read(\n\t\t_" ++ a.Func ++ ",\n\t\t") ++
  goQuote (strBytes (a.Name)) ++
  strBytes (",\n\t)\n\x7d\n\n")

/-- compressed_memcopy (release.go lines 313-338): a byte-slice literal of
the gzip stream, then the _bytes function delegating to bindata_read. -/
def compressed_memcopy (gz : List Nat → List Nat) (a : Asset) (content : List Nat) : List Nat :=
  strBytes ("var _" ++ a.Func ++ " = []byte(\"") ++
  escapeBytes (gz content) ++
  strBytes ("\")\n\nfunc " ++ a.Func ++ "_bytes() ([]byte, error) \x7b\n\treturn bindata_read(\n\t\t_" ++ a.Func ++ ",\n\t\t") ++
  goQuote (strBytes (a.Name)) ++
  strBytes (",\n\t)\n\x7d\n\n")

/-- uncompressed_nomemcopy (release.go lines 340-362): the raw file bytes
streamed through the escaping writer into a string literal, then the
_bytes function delegating to bindata_read. -/
def uncompressed_nomemcopy (a : Asset) (content : List Nat) : List Nat :=
  strBytes ("var _" ++ a.Func ++ " = \"") ++
  escapeBytes (content) ++
  strBytes ("\"\n\nfunc " ++ a.Func ++ "_bytes() ([]byte, error) \x7b\n\treturn bindata_read(\n\t\t_" ++ a.Func ++ ",\n\t\t") ++
  goQuote (strBytes (a.Name)) ++
  strBytes (",\n\t)\n\x7d\n\n")

/-- The literal chosen by uncompressed_memcopy (release.go lines 374-378):
a backtick raw literal of the sanitized bytes when the content is valid
UTF-8, Go's %q quoted literal otherwise. -/
def memcopyLiteral (content : List Nat) : List Nat :=
  if utf8Valid content then 0x60 :: (sanitize content ++ [0x60])
  else goQuote content

/-- uncompressed_memcopy (release.go lines 364-388): a byte-slice literal
around `memcopyLiteral`, then the _bytes function returning the literal
directly. -/
def uncompressed_memcopy (a : Asset) (content : List Nat) : List Nat :=
  strBytes ("var _" ++ a.Func ++ " = []byte(") ++
  memcopyLiteral content ++
  strBytes (")\n\nfunc " ++ a.Func ++ "_bytes() ([]byte, error) \x7b\n\treturn _" ++ a.Func ++ ", nil\n\x7d\n\n")

/-- The bindata_file_info literal embedded by asset_release_common
(release.go line 402), instantiated with the stat results. -/
def fileInfoRecordBytes (name : String) (fi : FileInfo) : List Nat :=
  strBytes ("bindata_file_info\x7bname: ") ++
  goQuote (strBytes name) ++
  strBytes (", size: " ++ toString fi.size ++ ", mode: os.FileMode(" ++
    toString (fi.mode % 4294967296) ++ "), modTime: time.Unix(" ++
    toString fi.modTimeUnix ++ ", 0)\x7d")

/-- asset_release_common (release.go lines 390-409): stat the source path
again and emit the constructor function embedding the metadata record; a
stat failure is returned as the error. -/
def asset_release_common (W : World) (a : Asset) : Except String (List Nat) :=
  match W.statFile a.Path with
  | .error e => .error e
  | .ok fi =>
    .ok (strBytes ("func " ++ a.Func ++ "() (*asset, error) \x7b\n\tbytes, err := " ++
          a.Func ++ "_bytes()\n\tif err != nil \x7b\n\t\treturn nil, err\n\t\x7d\n\n\tinfo := ") ++
        fileInfoRecordBytes (a.Name) fi ++
        strBytes ("\n\ta := &asset\x7bbytes: bytes, info:  info\x7d\n\treturn a, nil\n\x7d\n\n"))

/-- The asset body dispatch of writeReleaseAsset (release.go lines 68-80):
the same 2x2 choice on (NoCompress, NoMemCopy) as the header dispatch. -/
def releaseAssetBody (gz : List Nat → List Nat) (c : Config) (a : Asset) (content : List Nat) : List Nat :=
  if c.NoCompress then
    if c.NoMemCopy then uncompressed_nomemcopy a content
    else uncompressed_memcopy a content
  else
    if c.NoMemCopy then compressed_nomemcopy gz a content
    else compressed_memcopy gz a content

/-- writeReleaseAsset (release.go lines 60-85): open the source file
(failure returns the open error with nothing written), emit the asset
body, then asset_release_common (a stat failure there returns that error
after the body was already written). The result pairs the bytes written
to the output with the returned error, if any. -/
def writeReleaseAsset (gz : List Nat → List Nat) (W : World) (c : Config) (a : Asset) :
    List Nat × Option String :=
  match W.openFile a.Path with
  | .error e => ([], some e)
  | .ok content =>
    match asset_release_common W a with
    | .error e => (releaseAssetBody gz c a content, some e)
    | .ok tail => (releaseAssetBody gz c a content ++ tail, none)

/-- The per-asset loop of writeRelease (release.go lines 24-29): assets in
table-of-contents order, stopping at the first error. -/
def writeReleaseAssets (gz : List Nat → List Nat) (W : World) (c : Config) :
    List Asset → List Nat × Option String
  | [] => ([], none)
  | a :: rest =>
    let r := writeReleaseAsset gz W c a
    match r.2 with
    | some e => (r.1, some e)
    | none =>
      let r2 := writeReleaseAssets gz W c rest
      (r.1 ++ r2.1, r2.2)

/-- writeRelease (release.go lines 18-32): the header, then every asset in
order, aborting on the first error. -/
def writeRelease (gz : List Nat → List Nat) (W : World) (c : Config) (toc : List Asset) :
    List Nat × Option String :=
  let r := writeReleaseAssets gz W c toc
  (writeReleaseHeader c ++ r.1, r.2)

/-! ## Strategy selection as data (for the strategy-orthogonality claim) -/

/-- The four emitter implementations of release.go. -/
inductive Variant where
  | compressedNomemcopy
  | compressedMemcopy
  | uncompressedNomemcopy
  | uncompressedMemcopy
deriving DecidableEq

/-- The header variant selected by writeReleaseHeader's nested dispatch
(release.go lines 38-50). -/
def headerVariant (c : Config) : Variant :=
  if c.NoCompress then
    if c.NoMemCopy then .uncompressedNomemcopy else .uncompressedMemcopy
  else
    if c.NoMemCopy then .compressedNomemcopy else .compressedMemcopy

/-- The asset variant selected by writeReleaseAsset's nested dispatch
(release.go lines 68-80). -/
def assetVariant (c : Config) : Variant :=
  if c.NoCompress then
    if c.NoMemCopy then .uncompressedNomemcopy else .uncompressedMemcopy
  else
    if c.NoMemCopy then .compressedNomemcopy else .compressedMemcopy

/-- The strategy-specific header template of each variant. -/
def variantHeaderText : Variant → String
  | .compressedNomemcopy => header_compressed_nomemcopy
  | .compressedMemcopy => header_compressed_memcopy
  | .uncompressedNomemcopy => header_uncompressed_nomemcopy
  | .uncompressedMemcopy => header_uncompressed_memcopy

/-- The asset emitter of each variant. -/
def variantBody (v : Variant) (gz : List Nat → List Nat) (a : Asset) (content : List Nat) : List Nat :=
  match v with
  | .compressedNomemcopy => compressed_nomemcopy gz a content
  | .compressedMemcopy => compressed_memcopy gz a content
  | .uncompressedNomemcopy => uncompressed_nomemcopy a content
  | .uncompressedMemcopy => uncompressed_memcopy a content

/-! ## The compressed emitters over a fallible writer

For the claim about compression-stream write failures the writer cannot
be assumed infallible. The writer is modelled by a byte capacity: a write
that would push the total past the capacity fails with the writer's error
and appends nothing, which is how release.go sees an error come back from
io.Copy into the gzip writer stacked on the escaping writer over w. -/

/-- One write against the capacity-limited writer. -/
def fwrite (cap : Nat) (werr : String) (out bs : List Nat) : Except String (List Nat) :=
  if out.length + bs.length ≤ cap then .ok (out ++ bs) else .error werr

/-- compressed_nomemcopy against the fallible writer: the three writes of
release.go lines 287, 292-294 and 300-309, each error returned as-is. -/
def compressed_nomemcopy_fw (cap : Nat) (werr : String) (gz : List Nat → List Nat)
    (a : Asset) (content : List Nat) : List Nat × Option String :=
  match fwrite cap werr [] (strBytes ("var _" ++ a.Func ++ " = \"")) with
  | .error e => ([], some e)
  | .ok o1 =>
    match fwrite cap werr o1 (escapeBytes (gz content)) with
    | .error e => (o1, some e)
    | .ok o2 =>
      match fwrite cap werr o2
          (strBytes ("\"\n\nfunc " ++ a.Func ++ "_bytes() ([]byte, error) \x7b\n\treturn bindata_read(\n\t\t_" ++ a.Func ++ ",\n\t\t") ++
            goQuote (strBytes (a.Name)) ++ strBytes (",\n\t)\n\x7d\n\n")) with
      | .error e => (o2, some e)
      | .ok o3 => (o3, none)

/-- compressed_memcopy against the fallible writer: the three writes of
release.go lines 314, 319-321 and 327-336, each error returned as-is. -/
def compressed_memcopy_fw (cap : Nat) (werr : String) (gz : List Nat → List Nat)
    (a : Asset) (content : List Nat) : List Nat × Option String :=
  match fwrite cap werr [] (strBytes ("var _" ++ a.Func ++ " = []byte(\"")) with
  | .error e => ([], some e)
  | .ok o1 =>
    match fwrite cap werr o1 (escapeBytes (gz content)) with
    | .error e => (o1, some e)
    | .ok o2 =>
      match fwrite cap werr o2
          (strBytes ("\")\n\nfunc " ++ a.Func ++ "_bytes() ([]byte, error) \x7b\n\treturn bindata_read(\n\t\t_" ++ a.Func ++ ",\n\t\t") ++
            goQuote (strBytes (a.Name)) ++ strBytes (",\n\t)\n\x7d\n\n")) with
      | .error e => (o2, some e)
      | .ok o3 => (o3, none)

/-- Whether one byte list occurs as a contiguous run inside another, used
to state that an error message carries an asset's name. -/
def containsSeq (pat s : List Nat) : Bool :=
  if pat.isPrefixOf s then true
  else
    match s with
    | [] => pat.isEmpty
    | _ :: r => containsSeq pat r

/-! ## Concrete fixtures

Sample inputs used by the closed instantiations of the theorems below;
they are test data, not part of the embedding. -/

/-- A sample asset whose path `Wfix` can open and stat. -/
def assetA : Asset := ⟨"a", "a.txt", "a_txt"⟩

/-- A sample asset whose path `Wfix` can neither open nor stat. -/
def assetB : Asset := ⟨"b", "b.txt", "b_txt"⟩

/-- A sample world: path `a` holds one byte, everything else errors. -/
def Wfix : World :=
  ⟨fun p => if p = "a" then .ok [0x61] else .error "boom",
   fun p => if p = "a" then .ok ⟨1, 420, 99⟩ else .error "boom"⟩

/-- A world agreeing with `Wfix` on path `a` and differing elsewhere. -/
def Wfix2 : World :=
  ⟨fun p => if p = "a" then .ok [0x61] else .error "other",
   fun p => if p = "a" then .ok ⟨1, 420, 99⟩ else .error "other"⟩

/-! # Lemmas about the sanitizer -/

theorem replaceTick_cons_ne {b : Nat} (l : List Nat) (h : b ≠ 0x60) :
    replaceTick (b :: l) = b :: replaceTick l := by
  simp [replaceTick, h]

theorem replaceTick_tick (l : List Nat) :
    replaceTick (0x60 :: l) = tickRepl ++ replaceTick l := by
  simp [replaceTick]

theorem replaceBOM_cons_ne_ef {a : Nat} (l : List Nat) (h : a ≠ 0xEF) :
    replaceBOM (a :: l) = a :: replaceBOM l := by
  match l with
  | [] => rfl
  | [b] => rfl
  | b :: c :: r => simp [replaceBOM, h]

theorem replaceBOM_append_noEF {u : List Nat} (X : List Nat)
    (h : ∀ x ∈ u, x ≠ 0xEF) :
    replaceBOM (u ++ X) = u ++ replaceBOM X := by
  induction u with
  | nil => simp
  | cons a u ih =>
    have ha : a ≠ 0xEF := h a (by simp)
    have h2 : ∀ x ∈ u, x ≠ 0xEF := fun x hx => h x (by simp [hx])
    rw [List.cons_append, replaceBOM_cons_ne_ef _ ha, ih h2, List.cons_append]

theorem replaceBOM_bom (l : List Nat) :
    replaceBOM (0xEF :: 0xBB :: 0xBF :: l) = bomRepl ++ replaceBOM l := by
  simp [replaceBOM]

/-- Stepping over a leading 0xEF that does not start a byte-order mark. -/
theorem replaceBOM_cons_ef (l : List Nat) (h : bomStart (0xEF :: l) = false) :
    replaceBOM (0xEF :: l) = 0xEF :: replaceBOM l := by
  match l with
  | [] => rfl
  | [b] => rfl
  | b :: c :: r =>
    simp [bomStart] at h
    simp only [replaceBOM]
    rw [if_neg (by rintro ⟨-, hb, hc⟩; exact h hb hc)]

/-- Replacing backticks cannot create a byte-order mark right after a
leading 0xEF that did not start one. -/
theorem bomStart_replaceTick (l : List Nat) (h : bomStart (0xEF :: l) = false) :
    bomStart (0xEF :: replaceTick l) = false := by
  rcases l with _ | ⟨c, r⟩
  · rfl
  · by_cases hc : c = 0x60
    · subst hc
      rw [replaceTick_tick]
      simp [tickRepl, bomStart]
    · rw [replaceTick_cons_ne _ hc]
      rcases r with _ | ⟨d, r2⟩
      · rfl
      · by_cases hd : d = 0x60
        · subst hd
          rw [replaceTick_tick]
          simp [tickRepl, bomStart]
        · rw [replaceTick_cons_ne _ hd]
          simp [bomStart] at h ⊢
          exact h

theorem sanitize_tick (l : List Nat) :
    sanitize (0x60 :: l) = tickRepl ++ sanitize l := by
  unfold sanitize
  rw [replaceTick_tick, replaceBOM_append_noEF _ (by decide)]

theorem sanitize_bom (l : List Nat) :
    sanitize (0xEF :: 0xBB :: 0xBF :: l) = bomRepl ++ sanitize l := by
  unfold sanitize
  rw [replaceTick_cons_ne _ (by decide), replaceTick_cons_ne _ (by decide),
    replaceTick_cons_ne _ (by decide), replaceBOM_bom]

theorem sanitize_cons (b : Nat) (l : List Nat) (hb : b ≠ 0x60)
    (hbom : bomStart (b :: l) = false) :
    sanitize (b :: l) = b :: sanitize l := by
  unfold sanitize
  rw [replaceTick_cons_ne _ hb]
  by_cases hef : b = 0xEF
  · subst hef
    exact replaceBOM_cons_ef _ (bomStart_replaceTick _ hbom)
  · exact replaceBOM_cons_ne_ef _ hef

theorem replaceTick_id (l : List Nat) (h : 0x60 ∉ l) : replaceTick l = l := by
  induction l with
  | nil => rfl
  | cons b r ih =>
    have hb : b ≠ 0x60 := fun hh => h (by simp [hh])
    rw [replaceTick_cons_ne _ hb, ih (fun hm => h (List.mem_cons_of_mem _ hm))]

theorem replaceBOM_id (l : List Nat) (h : hasBomSub l = false) : replaceBOM l = l := by
  induction l with
  | nil => rfl
  | cons a r ih =>
    rcases r with _ | ⟨b, _ | ⟨c, r2⟩⟩
    · rfl
    · rfl
    · rw [show hasBomSub (a :: b :: c :: r2) =
          (((a == 0xEF) && (b == 0xBB) && (c == 0xBF)) || hasBomSub (b :: c :: r2)) from rfl,
        Bool.or_eq_false_iff] at h
      obtain ⟨h1, h2⟩ := h
      simp only [replaceBOM]
      rw [if_neg (by rintro ⟨rfl, rfl, rfl⟩; simp at h1), ih h2]

/-! # The raw-literal round trip -/

theorem parseConcatAux_step (f : Nat) (s : List Nat) :
    parseConcatAux (f + 1) s =
      match parseLit s with
      | none => none
      | some (bs, rest) =>
        match rest with
        | [] => some (bs, [])
        | h :: t =>
          if h = 0x2B then (parseConcatAux f t).map (fun p => (bs ++ p.1, p.2))
          else some (bs, h :: t) := rfl

theorem parseLit_raw (r : List Nat) : parseLit (0x60 :: r) = parseRaw r := by
  simp [parseLit]

theorem parseLit_quoted (r : List Nat) : parseLit (0x22 :: r) = parseQuoted r := by
  simp [parseLit]

theorem parseRaw_close (r : List Nat) : parseRaw (0x60 :: r) = some ([], r) := by
  simp [parseRaw]

theorem parseRaw_cons {b : Nat} (r : List Nat) (h1 : b ≠ 0x60) (h2 : b ≠ 0x0D) :
    parseRaw (b :: r) = (parseRaw r).map (fun p => (b :: p.1, p.2)) := by
  simp [parseRaw, h1, h2]

theorem parseQuoted_close (r : List Nat) : parseQuoted (0x22 :: r) = some ([], r) := by
  unfold parseQuoted
  simp

/-- Core round trip: parsing the backtick-delimited sanitized bytes, with
any sufficient fuel, recovers the original bytes, provided they hold no
carriage return (which Go's raw-literal rules would silently discard). -/
theorem sanitize_parse_core :
    ∀ (n : Nat) (B : List Nat) (f : Nat), B.length ≤ n → 0x0D ∉ B →
      (sanitize B).length + 3 ≤ f →
      parseConcatAux f (0x60 :: (sanitize B ++ [0x60])) = some (B, []) := by
  intro n
  induction n with
  | zero =>
    intro B f hn hcr hf
    have hB : B = [] := List.length_eq_zero.mp (Nat.le_zero.mp hn)
    subst hB
    obtain ⟨f1, rfl⟩ : ∃ f1, f = f1 + 1 := ⟨f - 1, by omega⟩
    rfl
  | succ n ih =>
    intro B f hn hcr hf
    match B with
    | [] =>
      obtain ⟨f1, rfl⟩ : ∃ f1, f = f1 + 1 := ⟨f - 1, by omega⟩
      rfl
    | b :: rest =>
      have hcrb : b ≠ 0x0D := fun hh => hcr (by simp [hh])
      have hcrr : 0x0D ∉ rest := fun hm => hcr (List.mem_cons_of_mem _ hm)
      have hlen1 : rest.length ≤ n := by simp at hn; omega
      by_cases hb : b = 0x60
      · -- a backtick becomes the escaped-and-concatenated replacement
        subst hb
        rw [sanitize_tick] at hf ⊢
        have hflen : (sanitize rest).length + 10 ≤ f := by
          simpa [tickRepl] using hf
        obtain ⟨f3, rfl⟩ : ∃ f3, f = f3 + 1 + 1 := ⟨f - 2, by omega⟩
        have hrec := ih rest f3 hlen1 hcrr (by omega)
        simp only [tickRepl, List.cons_append, List.append_assoc, List.nil_append]
        simp [parseConcatAux_step, parseLit_raw, parseLit_quoted, parseRaw_close,
          parseQuoted, parseQuoted_close, hrec]
      · by_cases hbom : bomStart (b :: rest) = true
        · -- a byte-order mark becomes its escaped replacement
          rcases rest with _ | ⟨c, _ | ⟨d, rest2⟩⟩
          · simp [bomStart] at hbom
          · simp [bomStart] at hbom
          · simp [bomStart] at hbom
            obtain ⟨⟨rfl, rfl⟩, rfl⟩ := hbom
            rw [sanitize_bom] at hf ⊢
            have hcr2 : 0x0D ∉ rest2 := fun hm => hcr (by simp [hm])
            have hlen2 : rest2.length ≤ n := by simp at hn; omega
            have hflen : (sanitize rest2).length + 21 ≤ f := by
              simpa [bomRepl] using hf
            obtain ⟨f3, rfl⟩ : ∃ f3, f = f3 + 1 + 1 := ⟨f - 2, by omega⟩
            have hrec := ih rest2 f3 hlen2 hcr2 (by omega)
            simp only [bomRepl, List.cons_append, List.append_assoc, List.nil_append]
            simp [parseConcatAux_step, parseLit_raw, parseLit_quoted, parseRaw_close,
              parseQuoted, parseQuoted_close, hexVal, hrec]
        · -- any other byte passes through the sanitizer and the raw parse
          simp only [Bool.not_eq_true] at hbom
          rw [sanitize_cons b rest hb hbom] at hf ⊢
          have hflen : (sanitize rest).length + 4 ≤ f := by
            simpa using hf
          obtain ⟨f1, rfl⟩ : ∃ f1, f = f1 + 1 := ⟨f - 1, by omega⟩
          have hrec := ih rest (f1 + 1) hlen1 hcrr (by omega)
          rw [parseConcatAux_step, parseLit_raw] at hrec
          rw [List.cons_append, parseConcatAux_step, parseLit_raw,
            parseRaw_cons _ hb hcrb]
          rcases hpr : parseRaw (sanitize rest ++ [0x60]) with _ | ⟨bs0, r0⟩
          · rw [hpr] at hrec
            simp at hrec
          · rw [hpr] at hrec
            rcases r0 with _ | ⟨h0, t0⟩
            · simp at hrec ⊢
              exact hrec
            · by_cases h0p : h0 = 0x2B
              · subst h0p
                rcases hq : parseConcatAux f1 t0 with _ | ⟨q1, q2⟩
                · simp [hq] at hrec
                · simp [hq] at hrec ⊢
                  obtain ⟨hr1, hr2⟩ := hrec
                  exact ⟨by rw [← hr1], hr2⟩
              · simp [h0p] at hrec

/-! # The quoted-literal round trip -/

theorem hexVal_hexDigit (d : Nat) (hd : d < 16) : hexVal (hexDigit d) = some d := by
  interval_cases d <;> decide

theorem parseQuoted_plain {b : Nat} (r : List Nat) (h1 : b ≠ 0x22) (h2 : b ≠ 0x5C)
    (h3 : b ≠ 0x0A) :
    parseQuoted (b :: r) = (parseQuoted r).map (fun p => (b :: p.1, p.2)) := by
  conv_lhs => rw [parseQuoted.eq_def]
  simp [h1, h2, h3]

theorem parseQuoted_hexEsc (b : Nat) (hb : b < 256) (t : List Nat) :
    parseQuoted (hexEsc b ++ t) = (parseQuoted t).map (fun p => (b :: p.1, p.2)) := by
  have h1 : b / 16 < 16 := by omega
  have h2 : b % 16 < 16 := by omega
  simp only [hexEsc, List.cons_append, List.nil_append]
  conv_lhs => rw [parseQuoted.eq_def]
  simp [hexVal_hexDigit _ h1, hexVal_hexDigit _ h2, Nat.div_add_mod]

theorem parseQuoted_escQ (r : List Nat) :
    parseQuoted (0x5C :: 0x22 :: r) = (parseQuoted r).map (fun p => ((0x22 : Nat) :: p.1, p.2)) := by
  conv_lhs => rw [parseQuoted.eq_def]
  simp

theorem parseQuoted_escB (r : List Nat) :
    parseQuoted (0x5C :: 0x5C :: r) = (parseQuoted r).map (fun p => ((0x5C : Nat) :: p.1, p.2)) := by
  conv_lhs => rw [parseQuoted.eq_def]
  simp

theorem parseQuoted_esc7 (r : List Nat) :
    parseQuoted (0x5C :: 0x61 :: r) = (parseQuoted r).map (fun p => ((7 : Nat) :: p.1, p.2)) := by
  conv_lhs => rw [parseQuoted.eq_def]
  simp

theorem parseQuoted_esc8 (r : List Nat) :
    parseQuoted (0x5C :: 0x62 :: r) = (parseQuoted r).map (fun p => ((8 : Nat) :: p.1, p.2)) := by
  conv_lhs => rw [parseQuoted.eq_def]
  simp

theorem parseQuoted_esc12 (r : List Nat) :
    parseQuoted (0x5C :: 0x66 :: r) = (parseQuoted r).map (fun p => ((12 : Nat) :: p.1, p.2)) := by
  conv_lhs => rw [parseQuoted.eq_def]
  simp

theorem parseQuoted_esc10 (r : List Nat) :
    parseQuoted (0x5C :: 0x6E :: r) = (parseQuoted r).map (fun p => ((0x0A : Nat) :: p.1, p.2)) := by
  conv_lhs => rw [parseQuoted.eq_def]
  simp

theorem parseQuoted_esc13 (r : List Nat) :
    parseQuoted (0x5C :: 0x72 :: r) = (parseQuoted r).map (fun p => ((0x0D : Nat) :: p.1, p.2)) := by
  conv_lhs => rw [parseQuoted.eq_def]
  simp

theorem parseQuoted_esc9 (r : List Nat) :
    parseQuoted (0x5C :: 0x74 :: r) = (parseQuoted r).map (fun p => ((9 : Nat) :: p.1, p.2)) := by
  conv_lhs => rw [parseQuoted.eq_def]
  simp

theorem parseQuoted_esc11 (r : List Nat) :
    parseQuoted (0x5C :: 0x76 :: r) = (parseQuoted r).map (fun p => ((0x0B : Nat) :: p.1, p.2)) := by
  conv_lhs => rw [parseQuoted.eq_def]
  simp

theorem quoteBodyF_nil (f : Nat) : quoteBodyF f [] = [] := by
  cases f <;> rfl

theorem accept3_range {lead c : Nat} (h : accept3 lead c = true) :
    0x80 ≤ c ∧ c ≤ 0xBF := by
  unfold accept3 at h
  split_ifs at h <;> simp [isCont] at h <;> omega

theorem accept4_range {lead c : Nat} (h : accept4 lead c = true) :
    0x80 ≤ c ∧ c ≤ 0xBF := by
  unfold accept4 at h
  split_ifs at h <;> simp [isCont] at h <;> omega

theorem quoteBodyF_parse :
    ∀ (f : Nat) (b t : List Nat), b.length ≤ f → (∀ x ∈ b, x < 256) →
      parseQuoted (quoteBodyF f b ++ (0x22 :: t)) = some (b, t) := by
  intro f
  induction f with
  | zero =>
    intro b t hlen _
    have hB : b = [] := List.length_eq_zero.mp (Nat.le_zero.mp hlen)
    subst hB
    simpa [quoteBodyF] using parseQuoted_close t
  | succ f ih =>
    intro b t hlen hbnd
    match b with
    | [] => simpa [quoteBodyF] using parseQuoted_close t
    | b0 :: r =>
      have hb0 : b0 < 256 := hbnd b0 (by simp)
      have hbr : ∀ x ∈ r, x < 256 := fun x hx => hbnd x (by simp [hx])
      have hlr : r.length ≤ f := by simp at hlen; omega
      have hrest := ih r t hlr hbr
      by_cases h80 : b0 < 0x80
      · have hstep : quoteBodyF (f + 1) (b0 :: r) = quoteAscii b0 ++ quoteBodyF f r := by
          simp [quoteBodyF, h80]
        rw [hstep, List.append_assoc]
        by_cases hq34 : b0 = 0x22
        · subst hq34; simp [quoteAscii, parseQuoted_escQ, hrest]
        · by_cases hq92 : b0 = 0x5C
          · subst hq92; simp [quoteAscii, parseQuoted_escB, hrest]
          · by_cases hprint : 0x20 ≤ b0 ∧ b0 < 0x7F
            · have h3 : b0 ≠ 0x0A := by omega
              have hA : ¬(b0 = 0x22 ∨ b0 = 0x5C) := by
                rintro (rfl | rfl) <;> simp_all
              simp only [quoteAscii, if_neg hA, if_pos hprint, List.cons_append,
                List.nil_append]
              rw [parseQuoted_plain _ hq34 hq92 h3, hrest]
              rfl
            · have hA : ¬(b0 = 0x22 ∨ b0 = 0x5C) := by
                rintro (rfl | rfl) <;> simp_all
              by_cases h7 : b0 = 7
              · subst h7; simp [quoteAscii, parseQuoted_esc7, hrest]
              · by_cases h8 : b0 = 8
                · subst h8; simp [quoteAscii, parseQuoted_esc8, hrest]
                · by_cases h12 : b0 = 12
                  · subst h12; simp [quoteAscii, parseQuoted_esc12, hrest]
                  · by_cases h10 : b0 = 0x0A
                    · subst h10; simp [quoteAscii, parseQuoted_esc10, hrest]
                    · by_cases h13 : b0 = 0x0D
                      · subst h13; simp [quoteAscii, parseQuoted_esc13, hrest]
                      · by_cases h9 : b0 = 9
                        · subst h9; simp [quoteAscii, parseQuoted_esc9, hrest]
                        · by_cases h11 : b0 = 0x0B
                          · subst h11; simp [quoteAscii, parseQuoted_esc11, hrest]
                          · have hx : quoteAscii b0 = hexEsc b0 := by
                              simp [quoteAscii, hA, hprint, h7, h8, h12, h10, h13, h9, h11]
                            rw [hx, parseQuoted_hexEsc b0 hb0, hrest]
                            rfl
      · -- a lead byte at or above 0x80
        have hb34 : b0 ≠ 0x22 := by omega
        have hb92 : b0 ≠ 0x5C := by omega
        have hb10 : b0 ≠ 0x0A := by omega
        by_cases h2b : 0xC2 ≤ b0 ∧ b0 ≤ 0xDF
        · rcases r with _ | ⟨c1, r2⟩
          · have hstep : quoteBodyF (f + 1) [b0] = hexEsc b0 := by
              simp [quoteBodyF, h80, h2b]
            rw [hstep, parseQuoted_hexEsc b0 hb0, parseQuoted_close]
            rfl
          · by_cases hc1 : isCont c1
            · have hstep : quoteBodyF (f + 1) (b0 :: c1 :: r2) =
                  b0 :: c1 :: quoteBodyF f r2 := by
                simp [quoteBodyF, h80, h2b, hc1]
              have hcr : 0x80 ≤ c1 ∧ c1 ≤ 0xBF := by simpa [isCont] using hc1
              have hr2 : r2.length ≤ f := by simp at hlen; omega
              have hbr2 : ∀ x ∈ r2, x < 256 := fun x hx => hbnd x (by simp [hx])
              have hrest2 := ih r2 t hr2 hbr2
              rw [hstep, List.cons_append, List.cons_append,
                parseQuoted_plain _ hb34 hb92 hb10,
                parseQuoted_plain _ (by omega) (by omega) (by omega), hrest2]
              rfl
            · have hstep : quoteBodyF (f + 1) (b0 :: c1 :: r2) =
                  hexEsc b0 ++ quoteBodyF f (c1 :: r2) := by
                simp [quoteBodyF, h80, h2b, hc1]
              rw [hstep, List.append_assoc, parseQuoted_hexEsc b0 hb0, hrest]
              rfl
        · by_cases h3b : 0xE0 ≤ b0 ∧ b0 ≤ 0xEF
          · rcases r with _ | ⟨c1, _ | ⟨c2, r3⟩⟩
            · have hstep : quoteBodyF (f + 1) [b0] = hexEsc b0 := by
                simp [quoteBodyF, h80, h2b, h3b, quoteBodyF_nil]
              rw [hstep, parseQuoted_hexEsc b0 hb0, parseQuoted_close]
              rfl
            · have hstep : quoteBodyF (f + 1) [b0, c1] = hexEsc b0 ++ quoteBodyF f [c1] := by
                simp [quoteBodyF, h80, h2b, h3b]
              rw [hstep, List.append_assoc, parseQuoted_hexEsc b0 hb0, hrest]
              rfl
            · by_cases hacc : accept3 b0 c1 && isCont c2
              · have hstep : quoteBodyF (f + 1) (b0 :: c1 :: c2 :: r3) =
                    b0 :: c1 :: c2 :: quoteBodyF f r3 := by
                  simp only [quoteBodyF, if_neg (by omega : ¬b0 < 0x80),
                    if_neg (by omega : ¬(0xC2 ≤ b0 ∧ b0 ≤ 0xDF)), if_pos h3b]
                  rw [if_pos hacc]
                have hconj := (Bool.and_eq_true _ _).mp hacc
                have hc1r : 0x80 ≤ c1 ∧ c1 ≤ 0xBF := accept3_range hconj.1
                have hc2r : 0x80 ≤ c2 ∧ c2 ≤ 0xBF := by simpa [isCont] using hconj.2
                have hr3 : r3.length ≤ f := by simp at hlen; omega
                have hbr3 : ∀ x ∈ r3, x < 256 := fun x hx => hbnd x (by simp [hx])
                have hrest3 := ih r3 t hr3 hbr3
                rw [hstep, List.cons_append, List.cons_append, List.cons_append,
                  parseQuoted_plain _ hb34 hb92 hb10,
                  parseQuoted_plain _ (by omega) (by omega) (by omega),
                  parseQuoted_plain _ (by omega) (by omega) (by omega), hrest3]
                rfl
              · have hstep : quoteBodyF (f + 1) (b0 :: c1 :: c2 :: r3) =
                    hexEsc b0 ++ quoteBodyF f (c1 :: c2 :: r3) := by
                  simp only [quoteBodyF, if_neg (by omega : ¬b0 < 0x80),
                    if_neg (by omega : ¬(0xC2 ≤ b0 ∧ b0 ≤ 0xDF)), if_pos h3b]
                  rw [if_neg hacc]
                rw [hstep, List.append_assoc, parseQuoted_hexEsc b0 hb0, hrest]
                rfl
          · by_cases h4b : 0xF0 ≤ b0 ∧ b0 ≤ 0xF4
            · rcases r with _ | ⟨c1, _ | ⟨c2, _ | ⟨c3, r4⟩⟩⟩
              · have hstep : quoteBodyF (f + 1) [b0] = hexEsc b0 := by
                  simp [quoteBodyF, h80, h2b, h3b, h4b, quoteBodyF_nil]
                rw [hstep, parseQuoted_hexEsc b0 hb0, parseQuoted_close]
                rfl
              · have hstep : quoteBodyF (f + 1) [b0, c1] =
                    hexEsc b0 ++ quoteBodyF f [c1] := by
                  simp [quoteBodyF, h80, h2b, h3b, h4b]
                rw [hstep, List.append_assoc, parseQuoted_hexEsc b0 hb0, hrest]
                rfl
              · have hstep : quoteBodyF (f + 1) [b0, c1, c2] =
                    hexEsc b0 ++ quoteBodyF f [c1, c2] := by
                  simp [quoteBodyF, h80, h2b, h3b, h4b]
                rw [hstep, List.append_assoc, parseQuoted_hexEsc b0 hb0, hrest]
                rfl
              · by_cases hacc : accept4 b0 c1 && isCont c2 && isCont c3
                · have hstep : quoteBodyF (f + 1) (b0 :: c1 :: c2 :: c3 :: r4) =
                      b0 :: c1 :: c2 :: c3 :: quoteBodyF f r4 := by
                    simp only [quoteBodyF, if_neg (by omega : ¬b0 < 0x80),
                      if_neg (by omega : ¬(0xC2 ≤ b0 ∧ b0 ≤ 0xDF)),
                      if_neg (by omega : ¬(0xE0 ≤ b0 ∧ b0 ≤ 0xEF)), if_pos h4b]
                    rw [if_pos hacc]
                  have h1 := (Bool.and_eq_true _ _).mp hacc
                  have h2 := (Bool.and_eq_true _ _).mp h1.1
                  have hc1r : 0x80 ≤ c1 ∧ c1 ≤ 0xBF := accept4_range h2.1
                  have hc2r : 0x80 ≤ c2 ∧ c2 ≤ 0xBF := by simpa [isCont] using h2.2
                  have hc3r : 0x80 ≤ c3 ∧ c3 ≤ 0xBF := by simpa [isCont] using h1.2
                  have hr4 : r4.length ≤ f := by simp at hlen; omega
                  have hbr4 : ∀ x ∈ r4, x < 256 := fun x hx => hbnd x (by simp [hx])
                  have hrest4 := ih r4 t hr4 hbr4
                  rw [hstep, List.cons_append, List.cons_append, List.cons_append,
                    List.cons_append, parseQuoted_plain _ hb34 hb92 hb10,
                    parseQuoted_plain _ (by omega) (by omega) (by omega),
                    parseQuoted_plain _ (by omega) (by omega) (by omega),
                    parseQuoted_plain _ (by omega) (by omega) (by omega), hrest4]
                  rfl
                · have hstep : quoteBodyF (f + 1) (b0 :: c1 :: c2 :: c3 :: r4) =
                      hexEsc b0 ++ quoteBodyF f (c1 :: c2 :: c3 :: r4) := by
                    simp only [quoteBodyF, if_neg (by omega : ¬b0 < 0x80),
                      if_neg (by omega : ¬(0xC2 ≤ b0 ∧ b0 ≤ 0xDF)),
                      if_neg (by omega : ¬(0xE0 ≤ b0 ∧ b0 ≤ 0xEF)), if_pos h4b]
                    rw [if_neg hacc]
                  rw [hstep, List.append_assoc, parseQuoted_hexEsc b0 hb0, hrest]
                  rfl
            · have hstep : quoteBodyF (f + 1) (b0 :: r) = hexEsc b0 ++ quoteBodyF f r := by
                rcases r with _ | ⟨c1, _ | ⟨c2, _ | ⟨c3, r4⟩⟩⟩ <;>
                  simp [quoteBodyF, h80, h2b, h3b, h4b]
              rw [hstep, List.append_assoc, parseQuoted_hexEsc b0 hb0, hrest]
              rfl

theorem goQuote_parse (b : List Nat) (hb : ∀ x ∈ b, x < 256) :
    parseGoStringExpr (goQuote b) = some b := by
  unfold parseGoStringExpr
  rw [goQuote, parseConcatAux_step, parseLit_quoted]
  have hbody : quoteBody b ++ [0x22] = quoteBodyF b.length b ++ (0x22 :: []) := rfl
  rw [hbody, quoteBodyF_parse b.length b [] le_rfl hb]

theorem parseQuoted_escapeBytes (b : List Nat) (hb : ∀ x ∈ b, x < 256) (t : List Nat) :
    parseQuoted (escapeBytes b ++ (0x22 :: t)) = some (b, t) := by
  induction b with
  | nil => simpa [escapeBytes] using parseQuoted_close t
  | cons b0 r ih =>
    have hb0 : b0 < 256 := hb b0 (by simp)
    simp only [escapeBytes, List.append_assoc]
    rw [parseQuoted_hexEsc b0 hb0, ih (fun x hx => hb x (by simp [hx]))]
    rfl

theorem escaped_string_parse (b : List Nat) (hb : ∀ x ∈ b, x < 256) :
    parseGoStringExpr (0x22 :: (escapeBytes b ++ [0x22])) = some b := by
  unfold parseGoStringExpr
  rw [parseConcatAux_step, parseLit_quoted]
  have hbody : escapeBytes b ++ [0x22] = escapeBytes b ++ (0x22 :: []) := rfl
  rw [hbody, parseQuoted_escapeBytes b hb []]

/-! # Lemmas about the generation run -/

theorem writeReleaseAssets_fail_at (gz : List Nat → List Nat) (W : World) (c : Config) :
    ∀ (toc : List Asset) (i : Nat) (hi : i < toc.length) (e : String),
      (∀ j (hj : j < i),
        (writeReleaseAsset gz W c (toc.get ⟨j, Nat.lt_trans hj hi⟩)).2 = none) →
      (writeReleaseAsset gz W c (toc.get ⟨i, hi⟩)).2 = some e →
      writeReleaseAssets gz W c toc =
        (((toc.take i).map (fun a => (writeReleaseAsset gz W c a).1)).flatten ++
          (writeReleaseAsset gz W c (toc.get ⟨i, hi⟩)).1, some e) := by
  intro toc
  induction toc with
  | nil => intro i hi; exact absurd hi (by simp)
  | cons a rest ih =>
    intro i hi e hprev hfail
    match i with
    | 0 =>
      simp only [List.get] at hfail
      simp [writeReleaseAssets, hfail]
    | i' + 1 =>
      have h0 : (writeReleaseAsset gz W c a).2 = none := by
        simpa using hprev 0 (Nat.succ_pos i')
      have hi' : i' < rest.length := by simpa using hi
      have hprev2 : ∀ j (hj : j < i'),
          (writeReleaseAsset gz W c (rest.get ⟨j, Nat.lt_trans hj hi'⟩)).2 = none := by
        intro j hj
        simpa using hprev (j + 1) (by omega)
      have hfail2 : (writeReleaseAsset gz W c (rest.get ⟨i', hi'⟩)).2 = some e := by
        simpa using hfail
      have hrec := ih i' hi' e hprev2 hfail2
      simp [writeReleaseAssets, h0, hrec]

theorem writeReleaseAsset_congr (gz : List Nat → List Nat) (c : Config) (a : Asset)
    (W1 W2 : World) (ho : W1.openFile a.Path = W2.openFile a.Path)
    (hs : W1.statFile a.Path = W2.statFile a.Path) :
    writeReleaseAsset gz W1 c a = writeReleaseAsset gz W2 c a := by
  unfold writeReleaseAsset asset_release_common
  rw [ho, hs]

theorem writeReleaseAssets_congr (gz : List Nat → List Nat) (c : Config) :
    ∀ (toc : List Asset) (W1 W2 : World),
      (∀ a ∈ toc, W1.openFile a.Path = W2.openFile a.Path ∧
        W1.statFile a.Path = W2.statFile a.Path) →
      writeReleaseAssets gz W1 c toc = writeReleaseAssets gz W2 c toc := by
  intro toc
  induction toc with
  | nil => intro W1 W2 _; rfl
  | cons a rest ih =>
    intro W1 W2 h
    have ha := h a (by simp)
    have hr := ih W1 W2 (fun x hx => h x (by simp [hx]))
    simp only [writeReleaseAssets]
    rw [writeReleaseAsset_congr gz c a W1 W2 ha.1 ha.2, hr]

theorem writeReleaseAssets_ok_flatten (gz : List Nat → List Nat) (W : World) (c : Config) :
    ∀ toc : List Asset, (writeReleaseAssets gz W c toc).2 = none →
      (writeReleaseAssets gz W c toc).1 =
        (toc.map (fun a => (writeReleaseAsset gz W c a).1)).flatten := by
  intro toc
  induction toc with
  | nil => intro _; rfl
  | cons a rest ih =>
    intro h
    rcases hA : (writeReleaseAsset gz W c a).2 with _ | e
    · have h2 : (writeReleaseAssets gz W c rest).2 = none := by
        simp [writeReleaseAssets, hA] at h
        exact h
      simp [writeReleaseAssets, hA, ih h2]
    · simp [writeReleaseAssets, hA] at h

/-! # The claims -/

/-- C1 (corrected): for every valid-UTF-8 byte sequence holding no
carriage return, emitting sanitize(B) between backtick delimiters and
parsing the result under Go's raw-string-literal and concatenation rules
yields exactly B. (Go's raw-literal rules discard carriage returns, which
sanitize does not escape; see the counterexample.) -/
theorem sanitize_raw_literal_roundTrip (B : List Nat) (hv : utf8Valid B = true)
    (hcr : 0x0D ∉ B) :
    parseGoStringExpr (0x60 :: (sanitize B ++ [0x60])) = some B := by
  unfold parseGoStringExpr
  have hlen : (0x60 :: (sanitize B ++ [0x60])).length + 1 = (sanitize B).length + 3 := by
    simp
  rw [hlen, sanitize_parse_core B.length B _ le_rfl hcr le_rfl]

/-- Closed instance of the C1 round trip on a byte sequence containing a
backtick and a byte-order mark. -/
theorem sanitize_raw_literal_roundTrip_witness :
    utf8Valid [0x61, 0x60, 0xEF, 0xBB, 0xBF] = true ∧
    (0x0D : Nat) ∉ [0x61, 0x60, 0xEF, 0xBB, 0xBF] ∧
    parseGoStringExpr (0x60 :: (sanitize [0x61, 0x60, 0xEF, 0xBB, 0xBF] ++ [0x60])) =
      some [0x61, 0x60, 0xEF, 0xBB, 0xBF] :=
  ⟨by decide, by decide, sanitize_raw_literal_roundTrip _ (by decide) (by decide)⟩

/-- C1 counterexample: a lone carriage return is valid UTF-8, passes
through sanitize unchanged, and the raw literal then re-parses to the
empty sequence, not to the original byte. -/
theorem sanitize_raw_literal_cr_cex :
    utf8Valid [0x0D] = true ∧ sanitize [0x0D] = [0x0D] ∧
    parseGoStringExpr (0x60 :: (sanitize [0x0D] ++ [0x60])) = some [] ∧
    some ([] : List Nat) ≠ some [0x0D] := by
  decide

/-- C2: the strategy dispatches of writeReleaseHeader and
writeReleaseAsset agree for every flag pair, the header and asset body
are exactly the selected variant's emitters, and the mapping from the
2x2 flag space onto the four variants is total and one-to-one (so the
choice is per run, never per asset). -/
theorem strategy_selection_total_and_matching :
    (∀ c : Config, headerVariant c = assetVariant c) ∧
    (∀ c : Config, writeReleaseHeader c =
      strBytes (variantHeaderText (headerVariant c)) ++ strBytes (header_release_common)) ∧
    (∀ (c : Config) (gz : List Nat → List Nat) (a : Asset) (content : List Nat),
      releaseAssetBody gz c a content = variantBody (assetVariant c) gz a content) ∧
    (∀ v : Variant, ∃! c : Config, assetVariant c = v) := by
  refine ⟨?_, ?_, ?_, ?_⟩
  · rintro ⟨nc, nm⟩
    cases nc <;> cases nm <;> rfl
  · rintro ⟨nc, nm⟩
    cases nc <;> cases nm <;> rfl
  · rintro ⟨nc, nm⟩ gz a content
    cases nc <;> cases nm <;> rfl
  · intro v
    cases v with
    | compressedNomemcopy =>
      exact ⟨⟨false, true⟩, by decide,
        by rintro ⟨nc, nm⟩ h; revert h; cases nc <;> cases nm <;> decide⟩
    | compressedMemcopy =>
      exact ⟨⟨false, false⟩, by decide,
        by rintro ⟨nc, nm⟩ h; revert h; cases nc <;> cases nm <;> decide⟩
    | uncompressedNomemcopy =>
      exact ⟨⟨true, true⟩, by decide,
        by rintro ⟨nc, nm⟩ h; revert h; cases nc <;> cases nm <;> decide⟩
    | uncompressedMemcopy =>
      exact ⟨⟨true, false⟩, by decide,
        by rintro ⟨nc, nm⟩ h; revert h; cases nc <;> cases nm <;> decide⟩

/-- C3: when the final stat succeeds, asset_release_common emits the
constructor whose embedded metadata record carries exactly the stat's
size, the stat's modification time in whole Unix seconds, the asset's
logical name, and the uint32 of its mode bits. -/
theorem asset_release_common_metadata_fidelity (W : World) (a : Asset) (fi : FileInfo)
    (hs : W.statFile a.Path = .ok fi) :
    asset_release_common W a =
      .ok (strBytes ("func " ++ a.Func ++ "() (*asset, error) \x7b\n\tbytes, err := " ++
          a.Func ++ "_bytes()\n\tif err != nil \x7b\n\t\treturn nil, err\n\t\x7d\n\n\tinfo := ") ++
        fileInfoRecordBytes (a.Name) fi ++
        strBytes ("\n\ta := &asset\x7bbytes: bytes, info:  info\x7d\n\treturn a, nil\n\x7d\n\n")) ∧
    fileInfoRecordBytes (a.Name) fi =
      strBytes ("bindata_file_info\x7bname: ") ++ goQuote (strBytes (a.Name)) ++
      strBytes (", size: " ++ toString fi.size ++ ", mode: os.FileMode(" ++
        toString (fi.mode % 4294967296) ++ "), modTime: time.Unix(" ++
        toString fi.modTimeUnix ++ ", 0)\x7d") := by
  refine ⟨?_, rfl⟩
  simp [asset_release_common, hs]

/-- Closed instance of C3 on the fixture world. -/
theorem asset_release_common_metadata_fidelity_witness :
    asset_release_common Wfix assetA =
      .ok (strBytes ("func " ++ "a_txt" ++ "() (*asset, error) \x7b\n\tbytes, err := " ++
          "a_txt" ++ "_bytes()\n\tif err != nil \x7b\n\t\treturn nil, err\n\t\x7d\n\n\tinfo := ") ++
        fileInfoRecordBytes "a.txt" ⟨1, 420, 99⟩ ++
        strBytes ("\n\ta := &asset\x7bbytes: bytes, info:  info\x7d\n\treturn a, nil\n\x7d\n\n")) :=
  (asset_release_common_metadata_fidelity Wfix assetA ⟨1, 420, 99⟩ rfl).1

/-- C4: when every asset before index i succeeds and asset i's open or
final stat fails, writeRelease returns that underlying error, and the
output holds only the header, the assets before i, and asset i's partial
emission: nothing after i is emitted. -/
theorem writeRelease_aborts_on_first_failure (gz : List Nat → List Nat) (W : World)
    (c : Config) (toc : List Asset) (i : Nat) (hi : i < toc.length) (e : String)
    (hprev : ∀ j (hj : j < i),
      (writeReleaseAsset gz W c (toc.get ⟨j, Nat.lt_trans hj hi⟩)).2 = none)
    (hfail : W.openFile (toc.get ⟨i, hi⟩).Path = .error e ∨
      ((∃ content, W.openFile (toc.get ⟨i, hi⟩).Path = .ok content) ∧
        W.statFile (toc.get ⟨i, hi⟩).Path = .error e)) :
    writeRelease gz W c toc =
      (writeReleaseHeader c ++
        (((toc.take i).map (fun a => (writeReleaseAsset gz W c a).1)).flatten ++
          (writeReleaseAsset gz W c (toc.get ⟨i, hi⟩)).1), some e) := by
  have hsnd : (writeReleaseAsset gz W c (toc.get ⟨i, hi⟩)).2 = some e := by
    rcases hfail with h | ⟨⟨content, hopen⟩, hstat⟩
    · simp only [List.get_eq_getElem] at h
      simp [writeReleaseAsset, h]
    · simp only [List.get_eq_getElem] at hopen hstat
      simp [writeReleaseAsset, hopen, asset_release_common, hstat]
  have h1 := writeReleaseAssets_fail_at gz W c toc i hi e hprev hsnd
  simp [writeRelease, h1]

/-- Closed instance of C4: the second asset's open fails, generation
stops with that error after the first asset. -/
theorem writeRelease_aborts_on_first_failure_witness :
    writeRelease (fun b => b) Wfix ⟨true, false⟩ [assetA, assetB] =
      (writeReleaseHeader ⟨true, false⟩ ++
        ((([assetA, assetB].take 1).map
            (fun a => (writeReleaseAsset (fun b => b) Wfix ⟨true, false⟩ a).1)).flatten ++
          (writeReleaseAsset (fun b => b) Wfix ⟨true, false⟩
            ([assetA, assetB].get ⟨1, by decide⟩)).1), some "boom") :=
  writeRelease_aborts_on_first_failure (fun b => b) Wfix ⟨true, false⟩ [assetA, assetB] 1
    (by decide) "boom"
    (by
      intro j hj
      interval_cases j
      show (writeReleaseAsset (fun b => b) Wfix ⟨true, false⟩ assetA).2 = none
      decide)
    (Or.inl rfl)

/-- C5 (corrected): the uncompressed copy path dispatches on UTF-8
validity, choosing the backtick raw literal of the sanitized bytes for
valid text and Go's quoted literal otherwise; the quoted form always
re-parses to the original bytes, and the raw form does so provided the
content holds no carriage return (see the counterexample). -/
theorem uncompressed_memcopy_literal_correct (a : Asset) (content : List Nat)
    (hbytes : ∀ x ∈ content, x < 256) :
    uncompressed_memcopy a content =
      strBytes ("var _" ++ a.Func ++ " = []byte(") ++ memcopyLiteral content ++
      strBytes (")\n\nfunc " ++ a.Func ++ "_bytes() ([]byte, error) \x7b\n\treturn _" ++
        a.Func ++ ", nil\n\x7d\n\n") ∧
    (utf8Valid content = true → memcopyLiteral content = 0x60 :: (sanitize content ++ [0x60])) ∧
    (utf8Valid content = false → memcopyLiteral content = goQuote content) ∧
    ((utf8Valid content = false ∨ 0x0D ∉ content) →
      parseGoStringExpr (memcopyLiteral content) = some content) := by
  refine ⟨rfl, ?_, ?_, ?_⟩
  · intro h
    simp [memcopyLiteral, h]
  · intro h
    simp [memcopyLiteral, h]
  · intro h
    by_cases hv : utf8Valid content = true
    · have hcr : 0x0D ∉ content := by
        rcases h with h | h
        · rw [hv] at h
          exact absurd h (by simp)
        · exact h
      simp only [memcopyLiteral, if_pos hv]
      unfold parseGoStringExpr
      have hlen : (0x60 :: (sanitize content ++ [0x60])).length + 1 =
          (sanitize content).length + 3 := by simp
      rw [hlen, sanitize_parse_core content.length content _ le_rfl hcr le_rfl]
    · have hv2 : utf8Valid content = false := by simpa using hv
      simp only [memcopyLiteral, hv2, if_false, Bool.false_eq_true]
      exact goQuote_parse content hbytes

/-- Closed instance of C5 on a one-byte valid-UTF-8 content. -/
theorem uncompressed_memcopy_literal_correct_witness :
    (∀ x ∈ ([0x61] : List Nat), x < 256) ∧
    parseGoStringExpr (memcopyLiteral [0x61]) = some [0x61] :=
  ⟨by decide,
    (uncompressed_memcopy_literal_correct assetA [0x61] (by decide)).2.2.2 (Or.inr (by decide))⟩

/-- C5 counterexample: a lone carriage return is valid UTF-8, so the raw
literal path is taken, but its emitted literal re-parses to the empty
sequence, not to the original content: the two literal forms are not
interchangeable on such inputs. -/
theorem uncompressed_memcopy_cr_cex :
    utf8Valid [0x0D] = true ∧
    uncompressed_memcopy assetA [0x0D] =
      strBytes ("var _" ++ "a_txt" ++ " = []byte(") ++ memcopyLiteral [0x0D] ++
      strBytes (")\n\nfunc " ++ "a_txt" ++ "_bytes() ([]byte, error) \x7b\n\treturn _" ++
        "a_txt" ++ ", nil\n\x7d\n\n") ∧
    parseGoStringExpr (memcopyLiteral [0x0D]) = some [] ∧
    some ([] : List Nat) ≠ some [0x0D] := by
  decide

/-- C6 (corrected): the uncompressed zero-copy path streams the file's
bytes through the escaping writer (StringWriter), not through sanitize;
the resulting quoted string literal re-parses to the original bytes. -/
theorem uncompressed_nomemcopy_escaped_literal (a : Asset) (content : List Nat) :
    uncompressed_nomemcopy a content =
      strBytes ("var _" ++ a.Func ++ " = \"") ++ escapeBytes content ++
      strBytes ("\"\n\nfunc " ++ a.Func ++ "_bytes() ([]byte, error) \x7b\n\treturn bindata_read(\n\t\t_" ++
        a.Func ++ ",\n\t\t") ++ goQuote (strBytes (a.Name)) ++ strBytes (",\n\t)\n\x7d\n\n") ∧
    ((∀ x ∈ content, x < 256) →
      parseGoStringExpr (0x22 :: (escapeBytes content ++ [0x22])) = some content) :=
  ⟨rfl, fun hb => escaped_string_parse content hb⟩

/-- Closed instance of C6 on a two-byte content. -/
theorem uncompressed_nomemcopy_escaped_literal_witness :
    uncompressed_nomemcopy assetA [0x00, 0xFF] =
      strBytes ("var _" ++ "a_txt" ++ " = \"") ++ escapeBytes [0x00, 0xFF] ++
      strBytes ("\"\n\nfunc " ++ "a_txt" ++ "_bytes() ([]byte, error) \x7b\n\treturn bindata_read(\n\t\t_" ++
        "a_txt" ++ ",\n\t\t") ++ goQuote (strBytes ("a.txt")) ++ strBytes (",\n\t)\n\x7d\n\n") ∧
    parseGoStringExpr (0x22 :: (escapeBytes [0x00, 0xFF] ++ [0x22])) = some [0x00, 0xFF] :=
  ⟨(uncompressed_nomemcopy_escaped_literal assetA [0x00, 0xFF]).1,
    (uncompressed_nomemcopy_escaped_literal assetA [0x00, 0xFF]).2 (by decide)⟩

/-- C6 counterexample: on the byte 0x61 the emitted literal body is the
escaped form, not sanitize's output, so the claim that the bytes pass
through the Literal Sanitizer on this path is false. -/
theorem uncompressed_nomemcopy_not_sanitize_cex :
    uncompressed_nomemcopy assetA [0x61] ≠
      strBytes ("var _" ++ "a_txt" ++ " = \"") ++ sanitize [0x61] ++
      strBytes ("\"\n\nfunc " ++ "a_txt" ++ "_bytes() ([]byte, error) \x7b\n\treturn bindata_read(\n\t\t_" ++
        "a_txt" ++ ",\n\t\t") ++ goQuote (strBytes ("a.txt")) ++ strBytes (",\n\t)\n\x7d\n\n") := by
  decide

/-- C7 (corrected): when the compression-stream write fails, both
compressed emitters abort with the writer's error exactly as the writer
produced it; no asset-name annotation is attached by release.go. -/
theorem compressed_write_failure_error_unannotated (gz : List Nat → List Nat)
    (a : Asset) (content : List Nat) (cap1 cap2 : Nat) (werr : String)
    (h1a : (strBytes ("var _" ++ a.Func ++ " = \"")).length ≤ cap1)
    (h1b : cap1 <
      (strBytes ("var _" ++ a.Func ++ " = \"")).length + (escapeBytes (gz content)).length)
    (h2a : (strBytes ("var _" ++ a.Func ++ " = []byte(\"")).length ≤ cap2)
    (h2b : cap2 <
      (strBytes ("var _" ++ a.Func ++ " = []byte(\"")).length + (escapeBytes (gz content)).length) :
    compressed_nomemcopy_fw cap1 werr gz a content =
      (strBytes ("var _" ++ a.Func ++ " = \""), some werr) ∧
    compressed_memcopy_fw cap2 werr gz a content =
      (strBytes ("var _" ++ a.Func ++ " = []byte(\""), some werr) := by
  constructor
  · have e1 : fwrite cap1 werr [] (strBytes ("var _" ++ a.Func ++ " = \"")) =
        .ok (strBytes ("var _" ++ a.Func ++ " = \"")) := by
      unfold fwrite
      rw [if_pos (by simpa using h1a)]
      simp
    have e2 : fwrite cap1 werr (strBytes ("var _" ++ a.Func ++ " = \""))
        (escapeBytes (gz content)) = .error werr := by
      unfold fwrite
      rw [if_neg (by omega)]
    unfold compressed_nomemcopy_fw
    simp [e1, e2]
  · have e1 : fwrite cap2 werr [] (strBytes ("var _" ++ a.Func ++ " = []byte(\"")) =
        .ok (strBytes ("var _" ++ a.Func ++ " = []byte(\"")) := by
      unfold fwrite
      rw [if_pos (by simpa using h2a)]
      simp
    have e2 : fwrite cap2 werr (strBytes ("var _" ++ a.Func ++ " = []byte(\""))
        (escapeBytes (gz content)) = .error werr := by
      unfold fwrite
      rw [if_neg (by omega)]
    unfold compressed_memcopy_fw
    simp [e1, e2]

/-- Closed instance of C7 with a writer that accepts exactly the opening
text and then fails. -/
theorem compressed_write_failure_error_unannotated_witness :
    compressed_nomemcopy_fw 10 "short write" (fun b => b) ⟨"p", "n", "f"⟩ [0] =
      (strBytes ("var _" ++ "f" ++ " = \""), some "short write") ∧
    compressed_memcopy_fw 17 "short write" (fun b => b) ⟨"p", "n", "f"⟩ [0] =
      (strBytes ("var _" ++ "f" ++ " = []byte(\""), some "short write") :=
  compressed_write_failure_error_unannotated (fun b => b) ⟨"p", "n", "f"⟩ [0] 10 17
    "short write" (by decide) (by decide) (by decide) (by decide)

/-- C7 counterexample: a failing compression-stream write surfaces the
writer's own error, which does not carry the offending asset's name. -/
theorem compressed_write_failure_no_name_cex :
    (compressed_nomemcopy_fw 10 "short write" (fun b => b) ⟨"p", "bar.txt", "f"⟩ [0]).2 =
      some "short write" ∧
    containsSeq (strBytes ("bar.txt")) (strBytes ("short write")) = false := by
  decide

/-- C8: two runs over worlds that agree on every table-of-contents path
produce identical output and error, and a successful run's output is the
header followed by every asset's emission in table-of-contents order. -/
theorem writeRelease_deterministic_and_ordered (gz : List Nat → List Nat)
    (c : Config) (toc : List Asset) (W1 W2 : World)
    (hagree : ∀ a ∈ toc, W1.openFile a.Path = W2.openFile a.Path ∧
      W1.statFile a.Path = W2.statFile a.Path) :
    writeRelease gz W1 c toc = writeRelease gz W2 c toc ∧
    ((writeRelease gz W1 c toc).2 = none →
      (writeRelease gz W1 c toc).1 =
        writeReleaseHeader c ++
          (toc.map (fun a => (writeReleaseAsset gz W1 c a).1)).flatten) := by
  constructor
  · unfold writeRelease
    rw [writeReleaseAssets_congr gz c toc W1 W2 hagree]
  · intro h
    unfold writeRelease at h ⊢
    simp only at h ⊢
    rw [writeReleaseAssets_ok_flatten gz W1 c toc h]

/-- Closed instance of C8: two worlds differing only away from the
table of contents produce identical byte streams. -/
theorem writeRelease_deterministic_and_ordered_witness :
    writeRelease (fun b => b) Wfix ⟨true, false⟩ [assetA] =
      writeRelease (fun b => b) Wfix2 ⟨true, false⟩ [assetA] ∧
    ((writeRelease (fun b => b) Wfix ⟨true, false⟩ [assetA]).2 = none →
      (writeRelease (fun b => b) Wfix ⟨true, false⟩ [assetA]).1 =
        writeReleaseHeader ⟨true, false⟩ ++
          ([assetA].map
            (fun a => (writeReleaseAsset (fun b => b) Wfix ⟨true, false⟩ a).1)).flatten) :=
  writeRelease_deterministic_and_ordered (fun b => b) ⟨true, false⟩ [assetA] Wfix Wfix2
    (by
      intro a ha
      simp at ha
      subst ha
      exact ⟨rfl, rfl⟩)

/-- C9: when opening an asset's source file fails, writeReleaseAsset
returns that error having written nothing to the output. -/
theorem writeReleaseAsset_open_failure_no_output (gz : List Nat → List Nat)
    (W : World) (c : Config) (a : Asset) (e : String)
    (h : W.openFile a.Path = .error e) :
    writeReleaseAsset gz W c a = ([], some e) := by
  simp [writeReleaseAsset, h]

/-- Closed instance of C9 on the fixture world. -/
theorem writeReleaseAsset_open_failure_no_output_witness :
    writeReleaseAsset (fun b => b) Wfix ⟨true, false⟩ assetB = ([], some "boom") :=
  writeReleaseAsset_open_failure_no_output (fun b => b) Wfix ⟨true, false⟩ assetB "boom" rfl

/-- C10: sanitize is the identity on byte sequences holding no backtick
and no occurrence of the UTF-8 byte-order mark. -/
theorem sanitize_identity_without_tick_or_bom (B : List Nat)
    (ht : 0x60 ∉ B) (hb : hasBomSub B = false) :
    sanitize B = B := by
  unfold sanitize
  rw [replaceTick_id B ht, replaceBOM_id _ hb]

/-- Closed instance of C10 on a sequence with a partial byte-order mark. -/
theorem sanitize_identity_without_tick_or_bom_witness :
    (0x60 : Nat) ∉ [0xEF, 0xBB, 0x41, 0x0D] ∧
    hasBomSub [0xEF, 0xBB, 0x41, 0x0D] = false ∧
    sanitize [0xEF, 0xBB, 0x41, 0x0D] = [0xEF, 0xBB, 0x41, 0x0D] :=
  ⟨by decide, by decide, sanitize_identity_without_tick_or_bom _ (by decide) (by decide)⟩

end Bindata
